import Mathlib

/-!
Verification of the vehicle signal server core (signal tree database,
command processor, subscription handler) against its specification.

The embedding below mirrors, definition by definition, the C++ sources:
`vssdatabase.cpp` (path resolution, `getMetaData`, `setSignal`,
`getSignal`), `vsscommandprocessor.cpp` (the response envelopes and the
`processSet` / `processSubscribe` / `processGetMetaData` handlers),
`VssCommandGet.cpp` (`processGet2`), and `SubscriptionHandler` /
`subscriptionhandler.hpp` (`subscribe`, `unsubscribe`, `unsubscribeAll`,
`updateByUUID`).

JSON values are modelled by an inductive `Json` type; numbers are carried
as integers (every concrete value the verified claims quantify over is an
integer, a boolean or a string; IEEE rounding of the `Float` / `Double`
coercions is below this embedding, which stores the numeric value as is).
String formatting (`pretty_print`) is presentation only and responses are
modelled as structured `Json` objects; the `timestamp` written from
`time(NULL)` is passed in as an explicit parameter.
-/

namespace Vss

/-- JSON values as manipulated by the server (mirrors `jsoncons::json`).
Objects are association lists of fields; jsoncons keeps object members
keyed by name, which the list models (all operations below are key based). -/
inductive Json where
  | null : Json
  | bool : Bool → Json
  | int : Int → Json
  | str : String → Json
  | arr : List Json → Json
  | obj : List (String × Json) → Json

/-- Field lookup in an object member list (mirrors `json::operator[]` /
`has_key` access on a jsoncons object). -/
def lookupField : List (String × Json) → String → Option Json
  | [], _ => none
  | (k', v) :: rest, k => if k' = k then some v else lookupField rest k

/-- Replace the binding of `k` if present, append it otherwise
(mirrors `json::insert_or_assign`). -/
def assignField : List (String × Json) → String → Json → List (String × Json)
  | [], k, v => [(k, v)]
  | (k', v') :: rest, k, v =>
      if k' = k then (k, v) :: rest else (k', v') :: assignField rest k v

/-- Remove the binding of `k` (mirrors `json::erase`). -/
def eraseField : List (String × Json) → String → List (String × Json)
  | [], _ => []
  | (k', v') :: rest, k =>
      if k' = k then eraseField rest k else (k', v') :: eraseField rest k

/-- Member access on a JSON value: `some` only on objects that carry the key. -/
def Json.get : Json → String → Option Json
  | .obj fs, k => lookupField fs k
  | _, _ => none

/-- Mirrors `json::has_key`. -/
def Json.hasKey (j : Json) (k : String) : Bool := (j.get k).isSome

/-- Mirrors `json::insert_or_assign` (no effect on non-objects). -/
def Json.insertOrAssign : Json → String → Json → Json
  | .obj fs, k, v => .obj (assignField fs k v)
  | j, _, _ => j

/-- Mirrors `json::erase` of one key (no effect on non-objects). -/
def Json.eraseKey : Json → String → Json
  | .obj fs, k => .obj (eraseField fs k)
  | j, _ => j

/-! ## Path resolution and tree views (`vssdatabase.cpp`) -/

/-- Mirrors `vssdatabase::getVSSSpecificPath` (lines 67-105) for wildcard-free
paths (wildcard expansion happens inside the JSONPath engine and is outside
the claims verified here; the empty token list, handled as the root path `$`
by the source, is likewise outside them).  `cur` is the object the next token
is looked up in: the VSS tree root at top level, a `children` object below.
Returns the resolved path (the JSONPath tokens without the interleaved
`children`), the node it denotes, and the final `isBranch` flag; `none`
mirrors the `""` return for an invalid or empty tag.  A non-branch node
reached before the last token ends the walk there, mirroring the `break`. -/
def getVSSSpecificPath (cur : Json) : List String → Option (List String × Json × Bool)
  | [] => none
  | [t] =>
      match cur.get t with
      | some node =>
          match node.get "type" with
          | some (.str ty) => some ([t], node, ty = "branch")
          | _ => none
      | none => none
  | t :: rest =>
      match cur.get t with
      | some node =>
          match node.get "type" with
          | some (.str ty) =>
              if ty = "branch" then
                match node.get "children" with
                | some kids =>
                    (getVSSSpecificPath kids rest).map (fun pnb => (t :: pnb.1, pnb.2))
                | none => none
              else some ([t], node, false)
          | _ => none
      | none => none

/-- Evaluation of a concrete resolved JSONPath (`json_query` on a path of the
form `$['a']['children']['b']...`): walk the named children. -/
def queryNode (cur : Json) : List String → Option Json
  | [] => none
  | [t] => cur.get t
  | t :: rest =>
      match cur.get t with
      | some node =>
          match node.get "children" with
          | some kids => queryNode kids rest
          | none => none
      | none => none

/-- Mirrors `json_replace(vss_tree, jPath, resJson)`: replace the node at a
concrete resolved path, leaving the tree unchanged when the path is absent. -/
def jsonReplaceAt (cur : Json) : List String → Json → Json
  | [], _ => cur
  | [t], newNode => if cur.hasKey t then cur.insertOrAssign t newNode else cur
  | t :: rest, newNode =>
      match cur.get t with
      | some node =>
          match node.get "children" with
          | some kids =>
              cur.insertOrAssign t
                (node.insertOrAssign "children" (jsonReplaceAt kids rest newNode))
          | none => cur
      | none => cur

/-- Mirrors `getReadablePath`: the dotted VSS form of a resolved path,
with the interleaved `children` tokens gone. -/
def getReadablePath (p : List String) : String := String.intercalate "." p

mutual
/-- Descendant leaf paths of a resolved node, mirroring the recursion of
`vssdatabase::getPathForGet` (lines 117-143): a node that has no `id` key and
whose `type` is `branch` is expanded through all of its children (the
`readablePath + ".*"` recursion); any other node is collected itself. -/
def collectLeaves : Json → List String → List (List String)
  | .obj fs, pfx =>
      match lookupField fs "id", lookupField fs "type" with
      | none, some (.str ty) =>
          if ty = "branch" then
            match h : lookupField fs "children" with
            | some (.obj kids) => collectKids kids pfx
            | _ => []
          else [pfx]
      | _, _ => [pfx]
  | _, pfx => [pfx]
termination_by node _ => sizeOf node
decreasing_by
  have key : ∀ (fs : List (String × Json)) (k : String) (v : Json),
      lookupField fs k = some v → sizeOf v < sizeOf fs := by
    intro fs k v hkv
    induction fs with
    | nil => simp [lookupField] at hkv
    | cons hd tl ih =>
        obtain ⟨k', v'⟩ := hd
        by_cases hk : k' = k
        · subst hk
          simp [lookupField] at hkv
          subst hkv
          simp
          omega
        · simp [lookupField, hk] at hkv
          have := ih hkv
          simp
          omega
  have := key _ _ _ h
  simp at this ⊢
  omega

/-- One `children` level of `collectLeaves`, in member order. -/
def collectKids : List (String × Json) → List String → List (List String)
  | [], _ => []
  | (k, v) :: rest, pfx => collectLeaves v (pfx ++ [k]) ++ collectKids rest pfx
termination_by kids _ => sizeOf kids
end

mutual
/-- Whether the key `k` occurs anywhere in a JSON value, at any depth. -/
def containsKeyDeep (k : String) : Json → Bool
  | .obj fs => fieldsKeyDeep k fs
  | .arr es => elemsKeyDeep k es
  | _ => false

/-- `containsKeyDeep` over an object member list. -/
def fieldsKeyDeep (k : String) : List (String × Json) → Bool
  | [] => false
  | (k', v) :: rest => k' = k || containsKeyDeep k v || fieldsKeyDeep k rest

/-- `containsKeyDeep` over an array element list. -/
def elemsKeyDeep (k : String) : List Json → Bool
  | [] => false
  | v :: rest => containsKeyDeep k v || elemsKeyDeep k rest
end

/-! ## Writing and reading signal values (`vssdatabase.cpp`) -/

/-- The internal error kinds a database call can end in, mirroring the
exception classes thrown by `vssdatabase.cpp` and caught (or not) by
`vsscommandprocessor.cpp`: `genErr` is `genException`, `outOfBound` is
`outOfBoundException`, `noPathFound` is `noPathFoundonTree` (caught by
`processSet`, though this database version never throws it from `setSignal`),
`keyNotFound` is `jsoncons::key_not_found` (caught only at `processQuery`),
and `libEx` stands for the remaining jsoncons conversion and JSONPath
errors, which escape the command processor. -/
inductive DbErr where
  | genErr (msg : String)
  | outOfBound (msg : String)
  | noPathFound (msg : String)
  | keyNotFound (msg : String)
  | libEx (msg : String)
deriving DecidableEq

/-- The value types the `setSignal` dispatch of `vssdatabase.cpp`
(lines 329-366) supports; note the absence of 64-bit integers. -/
def supportedValueType (ty : String) : Bool :=
  ty = "UInt8" || ty = "UInt16" || ty = "UInt32" || ty = "Int8" || ty = "Int16" ||
  ty = "Int32" || ty = "Float" || ty = "Double" || ty = "Boolean" || ty = "String"

/-- Integer coercion `item["value"].as<T>()` against the declared range.
Modelled from the spec: the range check itself happens inside the jsoncons
`as<T>` conversion (and, in the newer `VssDatabase::checkAndSanitizeType`, in
code that is not under `src/`); per the specification an integer datatype
accepts numeric input and fails `OutOfBounds` outside the declared range.
Non-numeric input ends in a library conversion error. -/
def asIntInRange (lo hi : Int) (ty : String) (v : Json) : Except DbErr Json :=
  match v with
  | .int n =>
      if lo ≤ n ∧ n ≤ hi then .ok (.int n)
      else .error (.outOfBound ("The type " ++ ty ++ " with the value passed is out of bound"))
  | _ => .error (.libEx "conversion failed")

/-- The per-type coercion dispatch of `vssdatabase::setSignal`
(lines 329-366).  `Float` and `Double` store the numeric value (IEEE
representation is below this embedding); `Boolean` takes only booleans,
`String` only strings; an unknown type is the `genException` at line 365. -/
def coerceValue (ty : String) (v : Json) : Except DbErr Json :=
  if ty = "UInt8" then asIntInRange 0 255 ty v
  else if ty = "UInt16" then asIntInRange 0 65535 ty v
  else if ty = "UInt32" then asIntInRange 0 4294967295 ty v
  else if ty = "Int8" then asIntInRange (-128) 127 ty v
  else if ty = "Int16" then asIntInRange (-32768) 32767 ty v
  else if ty = "Int32" then asIntInRange (-2147483648) 2147483647 ty v
  else if ty = "Float" then
    match v with | .int n => .ok (.int n) | _ => .error (.libEx "conversion failed")
  else if ty = "Double" then
    match v with | .int n => .ok (.int n) | _ => .error (.libEx "conversion failed")
  else if ty = "Boolean" then
    match v with | .bool b => .ok (.bool b) | _ => .error (.libEx "conversion failed")
  else if ty = "String" then
    match v with | .str s => .ok (.str s) | _ => .error (.libEx "conversion failed")
  else .error (.genErr ("The value type " ++ ty ++ " is not supported"))

/-- The declared range of each integer value type: the range of the C++
integral type the corresponding `as<T>` conversion of `setSignal` targets. -/
def intRange (ty : String) : Option (Int × Int) :=
  if ty = "UInt8" then some (0, 255)
  else if ty = "UInt16" then some (0, 65535)
  else if ty = "UInt32" then some (0, 4294967295)
  else if ty = "Int8" then some (-128, 127)
  else if ty = "Int16" then some (-32768, 32767)
  else if ty = "Int32" then some (-2147483648, 2147483647)
  else none

/-- Mirrors `vssdatabase::setSignal` (lines 304-400, with the non-array branch
of `getPathForSet`, lines 285-299; the wildcard/array expansion is outside the
verified claims): resolve the path, reject branches, coerce the value through
the declared value type, store it under `value` with `json_replace`, and
return the new tree together with the `(id, value)` pair handed to
`subscriptionhandler::update`.  An unresolved path makes `getPathForSet`
produce the JSONPath `""`, whose later query is a library error; the `id`
lookup of line 377 happens after the store, is not exercised by the claims,
and the partially updated tree of that error case is not modelled. -/
def setSignal (tree : Json) (toks : List String) (value : Json) :
    Except DbErr (Json × List (Int × Json)) :=
  if toks = [] then .error (.genErr "Path is empty while setting")
  else
    match getVSSSpecificPath tree toks with
    | none => .error (.libEx "invalid JSONPath")
    | some (_, _, true) => .error (.genErr "points to a branch. Needs to point to a signal")
    | some (p, node, false) =>
        match node.get "type" with
        | some (.str ty) =>
            match coerceValue ty value with
            | .ok w =>
                let node' := node.insertOrAssign "value" w
                match node'.get "id" with
                | some (.int i) => .ok (jsonReplaceAt tree p node', [(i, w)])
                | _ => .error (.keyNotFound "id")
            | .error e => .error e
        | _ => .error (.genErr "Type key not found")

/-- Mirrors the free function `setJsonValue` of `vssdatabase.cpp`
(lines 403-435): read `source["value"]` through the declared value type and
yield the value to store under the destination key; `none` when the type key
is missing or unknown (the source then writes nothing).  The stored values
were written by `setSignal` and are already of the declared type, so the
`as<T>` re-read is the stored value itself. -/
def setJsonValue (source : Json) : Option Json :=
  match source.get "type" with
  | some (.str ty) => if supportedValueType ty then source.get "value" else none
  | _ => none

/-- One step of the branch-view loop of `vssdatabase::getSignal`
(lines 460-472): write the leaf value, or `"---"` when the leaf has never
been written, under the readable leaf path.  A leaf whose type the value
reader does not know is skipped (`setJsonValue` writes nothing); an empty
query result (not reachable for the paths `collectLeaves` found) is skipped
as well. -/
def branchStep (tree : Json) (acc : Json) (lp : List String) : Json :=
  match queryNode tree lp with
  | some result =>
      if result.hasKey "value" then
        match setJsonValue result with
        | some w => acc.insertOrAssign (getReadablePath lp) w
        | none => acc
      else acc.insertOrAssign (getReadablePath lp) (.str "---")
  | none => acc

/-- One element of the multi-signal value array of `vssdatabase::getSignal`
(lines 497-519). -/
def multiEntry (tree : Json) (lp : List String) : Option Json :=
  match queryNode tree lp with
  | some result =>
      if result.hasKey "value" then
        match setJsonValue result with
        | some w => some (Json.obj [(getReadablePath lp, w)])
        | none => some (Json.obj [])
      else some (Json.obj [(getReadablePath lp, .str "---")])
  | none => none

/-- Mirrors `vssdatabase::getSignal` (lines 438-521) for wildcard-free paths.
The leaf paths are consumed with `back()` / `pop_back()`, hence in reverse
order.  An unresolved path yields the default-constructed empty object (the
`pathsFound == 0` return), which `processGet` then turns into the 404
response. -/
def getSignal (tree : Json) (toks : List String) : Except DbErr Json :=
  match getVSSSpecificPath tree toks with
  | none => .ok (Json.obj [])
  | some (p, node, isBranch) =>
      let jPaths := collectLeaves node p
      if jPaths.length = 0 then .ok (Json.obj [])
      else if isBranch then
        .ok (Json.obj [("value", jPaths.reverse.foldl (branchStep tree) (Json.obj []))])
      else
        match jPaths with
        | [lp] =>
            match queryNode tree lp with
            | some result =>
                let answer := Json.obj [("path", .str (getReadablePath lp))]
                if result.hasKey "value" then
                  match setJsonValue result with
                  | some w => .ok (answer.insertOrAssign "value" w)
                  | none => .ok answer
                else
                  if result.hasKey "type" then
                    .ok (answer.insertOrAssign "value" (.str "---"))
                  else .error (.genErr "Unknown type for signal found")
            | none => .error (.libEx "empty query result")
        | _ =>
            .ok (Json.obj [("value", Json.arr (jPaths.reverse.filterMap (multiEntry tree)))])

/-! ## Metadata extraction (`vssdatabase::getMetaData`, lines 168-239) -/

/-- Mirrors `vssdatabase::getMetaData` together with the resolution done by
`getPathForMetadata`: walk the path tokens; every node along the path keeps
all of its fields with its `children` member replaced by the next level, and
the final node is kept verbatim, wrapped under its own name (the source
copies `resArray[0]` wholesale into `parentArray`; nothing removes `value` or
`timestamp`).  `none` marks a walk on which `getVSSSpecificPath` would
return `""`; the source surfaces that case as a thrown jsoncons error inside
`getPathForMetadata` (see `getMetaData` below), never as a result.  A
non-branch node reached early ends the walk there. -/
def getMetaDataAux (cur : Json) : List String → Option Json
  | [] => none
  | [t] =>
      match cur.get t with
      | some node =>
          match node.get "type" with
          | some (.str _) => some (Json.obj [(t, node)])
          | _ => none
      | none => none
  | t :: rest =>
      match cur.get t with
      | some node =>
          match node.get "type" with
          | some (.str ty) =>
              if ty = "branch" then
                match node.get "children" with
                | some kids =>
                    match getMetaDataAux kids rest with
                    | some inner => some (Json.obj [(t, node.insertOrAssign "children" inner)])
                    | none => none
                | none => none
              else some (Json.obj [(t, node)])
          | _ => none
      | none => none

/-- `getMetaData` as called by the command processor.  For a (nonempty) path
that does not resolve, `getVSSSpecificPath` returns `""`, and
`getPathForMetadata` (lines 109-115) then runs `json_query(vss_tree, "")`
and indexes `pathRes[0]` on its result: a jsoncons library error, thrown
before the `jPath == ""` check of line 174 — whose `return NULL` at line 175
is therefore unreachable.  The unresolved path is a library error here
exactly as the identical empty-JSONPath query is in `setSignal`. -/
def getMetaData (tree : Json) (toks : List String) : Except DbErr Json :=
  match getMetaDataAux tree toks with
  | some res => .ok res
  | none => .error (.libEx "invalid JSONPath")

/-! ## Response envelopes and handlers (`vsscommandprocessor.cpp`) -/

/-- The common error envelope shape of `vsscommandprocessor.cpp`: `action`,
`requestId`, `error` with `number`, `reason` and `message`, `timestamp`.
The `time(NULL)` stamp is the explicit parameter `t`. -/
def errorEnvelope (action : String) (request_id : Nat) (number : Int)
    (reason message : String) (t : Nat) : Json :=
  Json.obj [("action", .str action), ("requestId", .int request_id),
            ("error", Json.obj [("number", .int number), ("reason", .str reason),
                                ("message", .str message)]),
            ("timestamp", .int t)]

/-- Mirrors `pathNotFoundResponse` (lines 67-81). -/
def pathNotFoundResponse (request_id : Nat) (action path : String) (t : Nat) : Json :=
  errorEnvelope action request_id 404 "Path not found"
    ("I can not find " ++ path ++ " in my db") t

/-- Mirrors `noAccessResponse` (lines 83-97). -/
def noAccessResponse (request_id : Nat) (action message : String) (t : Nat) : Json :=
  errorEnvelope action request_id 403 "Forbidden" message t

/-- Mirrors `valueOutOfBoundsResponse` (lines 99-113). -/
def valueOutOfBoundsResponse (request_id : Nat) (action message : String) (t : Nat) : Json :=
  errorEnvelope action request_id 400 "Value passed is out of bounds" message t

/-- Mirrors `vsscommandprocessor::processSet` (lines 156-200): run `setSignal`
and shape the result.  `some (response, tree)` pairs the response with the
tree the process continues with; `none` stands for an exception that escapes
the handler (jsoncons errors, caught only at `processQuery` or not at all). -/
def processSet (tree : Json) (request_id : Nat) (toks : List String) (value : Json)
    (t : Nat) : Option (Json × Json) :=
  match setSignal tree toks value with
  | .ok (tree', _) =>
      some (Json.obj [("action", .str "set"), ("requestId", .int request_id),
                      ("timestamp", .int t)], tree')
  | .error (.genErr msg) => some (errorEnvelope "set" request_id 401 "Unknown error" msg t, tree)
  | .error (.noPathFound _) =>
      some (pathNotFoundResponse request_id "set" (getReadablePath toks) t, tree)
  | .error (.outOfBound msg) =>
      some (valueOutOfBoundsResponse request_id "set" msg t, tree)
  | .error (.keyNotFound _) => none
  | .error (.libEx _) => none

/-- Mirrors `vsscommandprocessor::processGetMetaData` (lines 287-301): the
handler has no error branch and no try/catch.  A successful `getMetaData`
result is put under the `metadata` key of a normal response envelope; a
thrown jsoncons error escapes the handler (`none` — no response is built). -/
def processGetMetaData (tree : Json) (request_id : Nat) (toks : List String) (t : Nat) :
    Option Json :=
  match getMetaData tree toks with
  | .ok st =>
      some (Json.obj [("action", .str "getMetadata"), ("requestId", .int request_id),
                      ("metadata", st), ("timestamp", .int t)])
  | .error _ => none

/-! ## The Gen2 get handler (`VssCommandGet.cpp`, `processGet2`)

The Gen2 `VssDatabase::getLeafPaths` and `VssDatabase::getSignal`, and the
`JsonResponses` envelope builders, are not under `src/`; the handler is
therefore embedded over an abstract list of matched leaf paths `vssPaths`, an
abstract per-path read-permission check `canRead` (`IAccessChecker::
checkReadAccess`) and an abstract per-path signal view `getSig`. -/

/-- Modelled from the spec: `JsonResponses::pathNotFound` is not under
`src/`; per the specification a `get` on a path matching no leaves is the
404 envelope.  Gen2 request ids are strings. -/
def JsonResponses.pathNotFound (requestId action path : String) (t : Nat) : Json :=
  Json.obj [("action", .str action), ("requestId", .str requestId),
            ("error", Json.obj [("number", .int 404), ("reason", .str "Path not found"),
                                ("message", .str ("I can not find " ++ path ++ " in my db"))]),
            ("timestamp", .int t)]

/-- Modelled from the spec: `JsonResponses::noAccess` is not under `src/`;
per the specification a `get` whose every matched path is denied is the 403
envelope. -/
def JsonResponses.noAccess (requestId action message : String) (t : Nat) : Json :=
  Json.obj [("action", .str action), ("requestId", .str requestId),
            ("error", Json.obj [("number", .int 403), ("reason", .str "Forbidden"),
                                ("message", .str message)]),
            ("timestamp", .int t)]

/-- Mirrors `VssCommandProcessor::processGet2` (lines 57-111), after the
request-schema validation: partition the matched leaf paths by `canRead`,
collect the readable signal views (each with its `timestamp` moved to the
response), then shape 404 / 403 / scalar / array / `warning` exactly as the
source does. -/
def processGet2 (vssPaths : List String) (canRead : String → Bool)
    (getSig : String → Json) (requestId pathStr : String) (t : Nat) : Json :=
  let allowed := vssPaths.filter (fun p => canRead p)
  let noPermissionPaths := vssPaths.filter (fun p => !canRead p)
  let valueArray := allowed.map (fun p => (getSig p).eraseKey "timestamp")
  if vssPaths.length < 1 then JsonResponses.pathNotFound requestId "get" pathStr t
  else if vssPaths.length = noPermissionPaths.length then
    JsonResponses.noAccess requestId "get" ("No read access to " ++ pathStr) t
  else
    let base :=
      match allowed.getLast? with
      | some p => Json.obj [("timestamp", ((getSig p).get "timestamp").getD .null)]
      | none => Json.obj []
    let withValue :=
      if vssPaths.length = 1 then
        (base.insertOrAssign "path" (.str pathStr)).insertOrAssign "value"
          (((valueArray.headD (Json.obj [])).get pathStr).getD .null)
      else base.insertOrAssign "value" (.arr valueArray)
    let withWarning :=
      if noPermissionPaths.length > 0 then
        withValue.insertOrAssign "warning"
          (.str ("No read access to [ " ++ String.intercalate "," noPermissionPaths ++ " ]"))
      else withValue
    (withWarning.insertOrAssign "action" (.str "get")).insertOrAssign "requestId"
      (.str requestId)

/-! ## The subscription handler (`SubscriptionHandler` / `subscriptionhandler.hpp`)

The handler state is the map `subscribeHandle : uuid -> (subscription id ->
client id)` and the FIFO event buffer consumed by the delivery thread, both
modelled as lists (`std::unordered_map` is key based; every operation below
is key based too).  `CLIENT_MASK` lives in `visconf.hpp`, which is not under
`src/`. -/

/-- Modelled from the spec: `CLIENT_MASK` is defined in `visconf.hpp`, which
is not under `src/`; per the specification it is a fixed power of ten of at
least `10^7` partitioning the id space, and connection ids are multiples of
it (the delivery loop recovers `conn_id = (subscription_id / CLIENT_MASK) *
CLIENT_MASK`). -/
def CLIENT_MASK : Nat := 10000000

/-- Inner subscription map of one signal uuid: subscription id to client id. -/
abbrev Subscriptions := List (Nat × Nat)

/-- `subscribeHandle`: signal uuid to its subscription map. -/
abbrev SubMap := List (String × Subscriptions)

/-- State of the subscription handler: `subscribeHandle` plus the event
buffer filled by `updateByUUID` and drained by the delivery thread. -/
structure SubState where
  subscribeHandle : SubMap
  buffer : List (Nat × Json)

/-- The failures `SubscriptionHandler::subscribe` can end in, mirroring the
exception classes: `noPathFound` is `noPathFoundonTree`, `noPermission` is
`noPermissionException`, `genEx` is `genException`, and `libEx` stands for
jsoncons errors (a missing or non-string `uuid` member), which escape
`processSubscribe`. -/
inductive SubErr where
  | noPathFound (msg : String)
  | noPermission (msg : String)
  | genEx (msg : String)
  | libEx (msg : String)
deriving DecidableEq

/-- Assign inside one signal's subscription map
(`subscribeHandle[sigUUID][subId] = clientID`). -/
def assignSub : Subscriptions → Nat → Nat → Subscriptions
  | [], s, c => [(s, c)]
  | (s', c') :: rest, s, c =>
      if s' = s then (s, c) :: rest else (s', c') :: assignSub rest s c

/-- Lookup of one signal's subscription map (`subscribeHandle.find(sigUUID)`). -/
def findHandle : SubMap → String → Option Subscriptions
  | [], _ => none
  | (u', subs) :: rest, u => if u' = u then some subs else findHandle rest u

/-- `subscribeHandle[sigUUID][subId] = clientID`: the unordered map creates
the uuid entry when absent. -/
def addSub : SubMap → String → Nat → Nat → SubMap
  | [], u, s, c => [(u, [(s, c)])]
  | (u', subs) :: rest, u, s, c =>
      if u' = u then (u', assignSub subs s c) :: rest
      else (u', subs) :: addSub rest u s c

/-- Lookup of one recorded client id. -/
def lookupSub (m : SubMap) (u : String) (s : Nat) : Option Nat :=
  (findHandle m u).bind (fun subs => (subs.find? (fun e => e.1 = s)).map (fun e => e.2))

/-- Mirrors `SubscriptionHandler::subscribe` (`part_001`, lines 49-99).  The
inputs that come from collaborators are explicit: `r` is the draw
`rand() % 9999999`, `jPath` the result of `getVSSSpecificPath` (`""` when the
path is invalid), `hasAccess` the `checkReadAccess` verdict, and `resArray`
the `json_query` result on `jPath`. -/
def subscribe (st : SubState) (channelID r : Nat) (jPath : String)
    (hasAccess : Bool) (resArray : Json) : Except SubErr (Nat × SubState) :=
  let subId := channelID + r
  if jPath = "" then .error (.noPathFound jPath)
  else if !hasAccess then .error (.noPermission "no permission to subscribe to path")
  else
    let clientID := channelID / CLIENT_MASK
    match resArray with
    | .arr [result] =>
        match result.get "uuid" with
        | some (.str sigUUID) =>
            .ok (subId,
                 { st with subscribeHandle := addSub st.subscribeHandle sigUUID subId clientID })
        | _ => .error (.libEx "uuid")
    | .arr _ => .error (.noPathFound "Subscribe works for 1 signal at a time")
    | _ => .error (.genEx "some error occured while adding subscription for path")

/-- Mirrors `SubscriptionHandler::unsubscribe` (lines 101-110): erase the
subscription id from every uuid's map; always returns 0. -/
def unsubscribe (st : SubState) (subscribeID : Nat) : Nat × SubState :=
  (0, { st with
        subscribeHandle :=
          st.subscribeHandle.map
            (fun e => (e.1, e.2.filter (fun s => s.1 ≠ subscribeID))) })

/-- Mirrors `SubscriptionHandler::unsubscribeAll` (lines 112-122): erase
every entry whose stored client id equals `connectionID / CLIENT_MASK`.  The
in-place erase inside the range-for is modelled by the filter it performs
entry by entry (iterator invalidation is a memory-level concern below this
embedding). -/
def unsubscribeAll (st : SubState) (connectionID : Nat) : Nat × SubState :=
  (0, { st with
        subscribeHandle :=
          st.subscribeHandle.map
            (fun e => (e.1, e.2.filter (fun s => s.2 ≠ connectionID / CLIENT_MASK))) })

/-- Mirrors `SubscriptionHandler::updateByUUID` (lines 124-141): a uuid with
no entry returns 0 and changes nothing; otherwise one `(subscription id,
value)` event per subscriber of that uuid is pushed onto the buffer. -/
def updateByUUID (st : SubState) (signalUUID : String) (value : Json) : Nat × SubState :=
  match findHandle st.subscribeHandle signalUUID with
  | none => (0, st)
  | some subs =>
      (0, { st with buffer := st.buffer ++ subs.map (fun s => (s.1, value)) })

/-- Mirrors `vsscommandprocessor::processSubscribe` (lines 202-252): shape
the `subscribe` outcome.  A caught `genException` is rendered through
`valueOutOfBoundsResponse` exactly as the source does (lines 214-217);
`none` stands for an escaping jsoncons error. -/
def processSubscribe (st : SubState) (request_id : Nat) (path : String)
    (connectionID r : Nat) (jPath : String) (hasAccess : Bool) (resArray : Json)
    (t : Nat) : Option (Json × SubState) :=
  match subscribe st connectionID r jPath hasAccess resArray with
  | .error (.noPathFound _) => some (pathNotFoundResponse request_id "subscribe" path t, st)
  | .error (.genEx msg) => some (valueOutOfBoundsResponse request_id "subscribe" msg t, st)
  | .error (.noPermission msg) => some (noAccessResponse request_id "subscribe" msg t, st)
  | .error (.libEx _) => none
  | .ok (subId, st') =>
      if subId > 0 then
        some (Json.obj [("action", .str "subscribe"), ("requestId", .int request_id),
                        ("subscriptionId", .int subId), ("timestamp", .int t)], st')
      else
        some (errorEnvelope "subscribe" request_id 400 "Bad Request" "Unknown" t, st')

/-! ## A concrete fixture tree

A small signal tree in the shape the 1.0 VSS file loaded by
`vssdatabase::initJsonTree` has: leaves carry their value type under `type`
and a numeric signal `id`; branches carry `type = "branch"` and `children`. -/

/-- Fixture leaf `Vehicle.Acceleration.Lateral`, an `Int8` sensor. -/
def lateralNode : Json :=
  Json.obj [("type", .str "Int8"), ("id", .int 1), ("uuid", .str "lat-uuid"),
            ("description", .str "Lateral acceleration")]

/-- Fixture leaf `Vehicle.Acceleration.Vertical`, an `Int32` sensor. -/
def verticalNode : Json :=
  Json.obj [("type", .str "Int32"), ("id", .int 2), ("uuid", .str "vert-uuid"),
            ("description", .str "Vertical acceleration")]

/-- Fixture branch `Vehicle.Acceleration`. -/
def accelerationNode : Json :=
  Json.obj [("type", .str "branch"), ("uuid", .str "acc-uuid"),
            ("description", .str "Spatial acceleration"),
            ("children", Json.obj [("Lateral", lateralNode), ("Vertical", verticalNode)])]

/-- Fixture tree root. -/
def vssTree : Json :=
  Json.obj [("Vehicle",
             Json.obj [("type", .str "branch"), ("uuid", .str "veh-uuid"),
                       ("description", .str "High-level vehicle data"),
                       ("children", Json.obj [("Acceleration", accelerationNode)])])]

/-! # Theorems -/

/-! ## Object-field lemmas -/

theorem lookupField_assign_self (fs : List (String × Json)) (k : String) (v : Json) :
    lookupField (assignField fs k v) k = some v := by
  induction fs with
  | nil => simp [assignField, lookupField]
  | cons hd tl ih =>
      obtain ⟨k', v'⟩ := hd
      by_cases h : k' = k
      · simp [assignField, lookupField, h]
      · simp [assignField, lookupField, h, ih]

theorem lookupField_assign_ne (fs : List (String × Json)) (k k' : String) (v : Json)
    (h : k' ≠ k) : lookupField (assignField fs k v) k' = lookupField fs k' := by
  induction fs with
  | nil => simp [assignField, lookupField, Ne.symm h]
  | cons hd tl ih =>
      obtain ⟨k₀, v₀⟩ := hd
      by_cases hk : k₀ = k
      · subst hk
        simp [assignField, lookupField, Ne.symm h]
      · simp [assignField, lookupField, hk, ih]

theorem get_insertOrAssign_self (fs : List (String × Json)) (k : String) (v : Json) :
    (Json.insertOrAssign (.obj fs) k v).get k = some v := by
  simp [Json.insertOrAssign, Json.get, lookupField_assign_self]

theorem get_insertOrAssign_ne (fs : List (String × Json)) (k k' : String) (v : Json)
    (h : k' ≠ k) :
    (Json.insertOrAssign (.obj fs) k v).get k' = (Json.obj fs).get k' := by
  simp [Json.insertOrAssign, Json.get, lookupField_assign_ne fs k k' v h]

/-! ## Subscription-map lemmas -/

theorem lookupSub_addSub_self (m : SubMap) (u : String) (s c : Nat) :
    lookupSub (addSub m u s c) u s = some c := by
  have inner : ∀ (subs : Subscriptions),
      ((assignSub subs s c).find? (fun e => decide (e.1 = s))).map (fun e => e.2) = some c := by
    intro subs
    induction subs with
    | nil => simp [assignSub]
    | cons hd tl ih =>
        obtain ⟨s', c'⟩ := hd
        by_cases hs : s' = s
        · subst hs
          simp [assignSub]
        · simp [assignSub, hs, List.find?, ih]
  induction m with
  | nil => simp [addSub, lookupSub, findHandle, inner [] ]
  | cons hd tl ih =>
      obtain ⟨u', subs⟩ := hd
      by_cases hu : u' = u
      · subst hu
        simp [addSub, lookupSub, findHandle, inner subs]
      · simpa [addSub, lookupSub, findHandle, hu] using ih

/-- Division by the client mask after adding a below-mask summand to a
multiple of the mask. -/
theorem add_div_client_mask (channelID r : Nat) (hch : channelID % CLIENT_MASK = 0)
    (hr : r < 9999999) : (channelID + r) / CLIENT_MASK = channelID / CLIENT_MASK := by
  obtain ⟨q, hq⟩ := Nat.dvd_of_mod_eq_zero hch
  subst hq
  have hm : 0 < CLIENT_MASK := by simp [CLIENT_MASK]
  have hrm : r < CLIENT_MASK := by
    have : (9999999 : Nat) < CLIENT_MASK := by simp [CLIENT_MASK]
    omega
  rw [Nat.mul_add_div hm, Nat.mul_div_cancel_left q hm, Nat.div_eq_of_lt hrm]
  omega

/-! ## Claim C1 -/

/-- C1 (confirmed): every subscription created by `subscribe` records, under
the returned subscription id, exactly the client id that integer division of
the subscription id by `CLIENT_MASK` recovers.  The hypotheses record how
the collaborators outside `src/` drive the call: the connection id handed in
by the server is a multiple of `CLIENT_MASK` and the random summand is
`rand() % 9999999`, hence below the mask. -/
theorem subscribe_encodes_client_id
    (st : SubState) (channelID r : Nat) (jPath : String) (hasAccess : Bool)
    (resArray : Json) (subId : Nat) (st' : SubState)
    (hch : channelID % CLIENT_MASK = 0) (hr : r < 9999999)
    (h : subscribe st channelID r jPath hasAccess resArray = .ok (subId, st')) :
    ∃ sigUUID, lookupSub st'.subscribeHandle sigUUID subId = some (subId / CLIENT_MASK) := by
  by_cases hjp : jPath = ""
  · simp [subscribe, hjp] at h
  · rcases hacc : hasAccess with _ | _
    · simp [subscribe, hjp, hacc] at h
    · rcases resArray with _ | b | n | s | l | fs
      · simp [subscribe, hjp, hacc] at h
      · simp [subscribe, hjp, hacc] at h
      · simp [subscribe, hjp, hacc] at h
      · simp [subscribe, hjp, hacc] at h
      · rcases l with _ | ⟨a, _ | ⟨a₂, rest⟩⟩
        · simp [subscribe, hjp, hacc] at h
        · rcases hu : a.get "uuid" with _ | u
          · simp [subscribe, hjp, hacc, hu] at h
          · rcases u with _ | b' | n' | sigUUID | l' | fs'
            · simp [subscribe, hjp, hacc, hu] at h
            · simp [subscribe, hjp, hacc, hu] at h
            · simp [subscribe, hjp, hacc, hu] at h
            · simp [subscribe, hjp, hacc, hu] at h
              obtain ⟨hid, hst⟩ := h
              subst hid
              subst hst
              refine ⟨sigUUID, ?_⟩
              rw [add_div_client_mask channelID r hch hr]
              exact lookupSub_addSub_self st.subscribeHandle sigUUID (channelID + r)
                (channelID / CLIENT_MASK)
            · simp [subscribe, hjp, hacc, hu] at h
            · simp [subscribe, hjp, hacc, hu] at h
        · simp [subscribe, hjp, hacc] at h
      · simp [subscribe, hjp, hacc] at h

/-- Witness for C1 at a concrete subscription. -/
theorem subscribe_encodes_client_id_witness :
    ∃ sigUUID,
      lookupSub (SubState.mk [("lat-uuid", [(10000042, 1)])] []).subscribeHandle sigUUID
        10000042 = some (10000042 / CLIENT_MASK) :=
  subscribe_encodes_client_id ⟨[], []⟩ 10000000 42 "$.Vehicle" true
    (.arr [.obj [("uuid", .str "lat-uuid")]]) 10000042 ⟨[("lat-uuid", [(10000042, 1)])], []⟩
    (by decide) (by decide) rfl

/-! ## Claim C8 -/

/-- C8 (counterexample): a subscribe whose path resolves to two signals is
answered with exactly the same `pathNotFoundResponse` envelope (and the same
`noPathFoundonTree` exception class behind it) as a subscribe whose path
resolves to no node at all; there is no distinct `NotSingleSignal` failure. -/
theorem subscribe_multi_signal_not_distinct :
    processSubscribe ⟨[], []⟩ 7 "Vehicle.Acceleration" 10000000 5 "$.Vehicle.Acceleration"
        true (.arr [lateralNode, verticalNode]) 0 =
      some (pathNotFoundResponse 7 "subscribe" "Vehicle.Acceleration" 0, ⟨[], []⟩) ∧
    processSubscribe ⟨[], []⟩ 7 "Vehicle.Acceleration" 10000000 5 "" true
        (.arr [lateralNode, verticalNode]) 0 =
      some (pathNotFoundResponse 7 "subscribe" "Vehicle.Acceleration" 0, ⟨[], []⟩) :=
  ⟨rfl, rfl⟩

/-- C8 (amended): a subscribe whose path resolves to more than one signal
fails, but through the same `noPathFoundonTree` exception used for an
unresolvable path — rendered by `processSubscribe` as the 404 path-not-found
envelope — and not through a failure kind of its own; only the
`noPermissionException` path is distinct. -/
theorem subscribe_multi_signal_is_noPathFound
    (st : SubState) (channelID r : Nat) (jPath : String) (a b : Json) (rest : List Json)
    (request_id : Nat) (path : String) (t : Nat) (hjp : jPath ≠ "") :
    subscribe st channelID r jPath true (.arr (a :: b :: rest)) =
      .error (.noPathFound "Subscribe works for 1 signal at a time") ∧
    processSubscribe st request_id path channelID r jPath true (.arr (a :: b :: rest)) t =
      some (pathNotFoundResponse request_id "subscribe" path t, st) := by
  have hs : subscribe st channelID r jPath true (.arr (a :: b :: rest)) =
      .error (.noPathFound "Subscribe works for 1 signal at a time") := by
    simp [subscribe, hjp]
  exact ⟨hs, by simp [processSubscribe, hs]⟩

/-- Witness for the amended C8. -/
theorem subscribe_multi_signal_is_noPathFound_witness :
    subscribe ⟨[], []⟩ 10000000 5 "$.Vehicle.Acceleration" true
        (.arr [lateralNode, verticalNode]) =
      .error (.noPathFound "Subscribe works for 1 signal at a time") ∧
    processSubscribe ⟨[], []⟩ 7 "Vehicle.Acceleration" 10000000 5 "$.Vehicle.Acceleration"
        true (.arr [lateralNode, verticalNode]) 0 =
      some (pathNotFoundResponse 7 "subscribe" "Vehicle.Acceleration" 0, ⟨[], []⟩) :=
  subscribe_multi_signal_is_noPathFound ⟨[], []⟩ 10000000 5 "$.Vehicle.Acceleration"
    lateralNode verticalNode [] 7 "Vehicle.Acceleration" 0 (by decide)

/-! ## Claim C9 -/

/-- C9 (confirmed): after `unsubscribeAll c`, no remaining subscription
stores the client id `c / CLIENT_MASK`, and every subscription of any other
client survives under its uuid. -/
theorem unsubscribeAll_removes_exactly_client (st : SubState) (c : Nat) :
    (∀ u subs, (u, subs) ∈ (unsubscribeAll st c).2.subscribeHandle →
        ∀ e ∈ subs, e.2 ≠ c / CLIENT_MASK) ∧
    (∀ u subs, (u, subs) ∈ st.subscribeHandle → ∀ e ∈ subs, e.2 ≠ c / CLIENT_MASK →
        ∃ subs', (u, subs') ∈ (unsubscribeAll st c).2.subscribeHandle ∧ e ∈ subs') := by
  constructor
  · intro u subs hmem e he
    simp only [unsubscribeAll, List.mem_map] at hmem
    obtain ⟨⟨u₀, subs₀⟩, _, heq⟩ := hmem
    obtain ⟨rfl, rfl⟩ : u = u₀ ∧ subs = subs₀.filter (fun s => s.2 ≠ c / CLIENT_MASK) := by
      simpa using heq.symm
    have := List.of_mem_filter he
    simpa using this
  · intro u subs hmem e he hne
    refine ⟨subs.filter (fun s => s.2 ≠ c / CLIENT_MASK), ?_, ?_⟩
    · simp only [unsubscribeAll, List.mem_map]
      exact ⟨(u, subs), hmem, rfl⟩
    · exact List.mem_filter.mpr ⟨he, by simpa using hne⟩

/-- Witness for C9: a foreign subscription survives `unsubscribeAll`. -/
theorem unsubscribeAll_removes_exactly_client_witness :
    ∃ subs', ("lat-uuid", subs') ∈
        (unsubscribeAll ⟨[("lat-uuid", [(5, 0), (10000007, 1)])], []⟩ 10000000).2.subscribeHandle ∧
      (5, 0) ∈ subs' :=
  (unsubscribeAll_removes_exactly_client ⟨[("lat-uuid", [(5, 0), (10000007, 1)])], []⟩
      10000000).2 "lat-uuid" [(5, 0), (10000007, 1)] (by simp) (5, 0) (by simp) (by decide)

/-! ## Claim C10 -/

/-- C10 (confirmed): `updateByUUID` returns 0 and changes nothing for a uuid
without subscribers; for a uuid with subscribers it returns 0, appends
exactly one `(subscription id, value)` event per subscriber to the buffer,
and leaves the subscription map untouched. -/
theorem updateByUUID_frame (st : SubState) (u : String) (v : Json) :
    (findHandle st.subscribeHandle u = none → updateByUUID st u v = (0, st)) ∧
    (∀ subs, findHandle st.subscribeHandle u = some subs →
        (updateByUUID st u v).1 = 0 ∧
        (updateByUUID st u v).2.subscribeHandle = st.subscribeHandle ∧
        (updateByUUID st u v).2.buffer = st.buffer ++ subs.map (fun s => (s.1, v))) := by
  constructor
  · intro hnone
    simp [updateByUUID, hnone]
  · intro subs hsome
    simp [updateByUUID, hsome]

/-- Witness for C10: one event per subscriber is appended. -/
theorem updateByUUID_frame_witness :
    (updateByUUID ⟨[("lat-uuid", [(3, 0), (10000042, 1)])], [(9, Json.int 1)]⟩ "lat-uuid"
        (Json.int 7)).1 = 0 ∧
    (updateByUUID ⟨[("lat-uuid", [(3, 0), (10000042, 1)])], [(9, Json.int 1)]⟩ "lat-uuid"
        (Json.int 7)).2.subscribeHandle = [("lat-uuid", [(3, 0), (10000042, 1)])] ∧
    (updateByUUID ⟨[("lat-uuid", [(3, 0), (10000042, 1)])], [(9, Json.int 1)]⟩ "lat-uuid"
        (Json.int 7)).2.buffer =
      [(9, Json.int 1)] ++ [(3, 0), (10000042, 1)].map (fun s => (s.1, Json.int 7)) :=
  (updateByUUID_frame ⟨[("lat-uuid", [(3, 0), (10000042, 1)])], [(9, Json.int 1)]⟩
      "lat-uuid" (Json.int 7)).2 [(3, 0), (10000042, 1)] rfl

/-! ## Deep-key lemmas for the metadata claims -/

theorem fieldsKeyDeep_lookup_all {k t : String} {fs : List (String × Json)} {v : Json}
    (hl : lookupField fs t = some v) (hfs : fieldsKeyDeep k fs = false) :
    t ≠ k ∧ containsKeyDeep k v = false := by
  induction fs with
  | nil => simp [lookupField] at hl
  | cons hd tl ih =>
      obtain ⟨k', v'⟩ := hd
      simp only [fieldsKeyDeep, Bool.or_eq_false_iff, decide_eq_false_iff_not] at hfs
      obtain ⟨⟨hk1, hk2⟩, hk3⟩ := hfs
      by_cases hkt : k' = t
      · subst hkt
        simp [lookupField] at hl
        subst hl
        exact ⟨hk1, hk2⟩
      · simp only [lookupField, if_neg hkt] at hl
        exact ih hl hk3

theorem containsKeyDeep_get {k t : String} {j v : Json}
    (hj : containsKeyDeep k j = false) (hg : j.get t = some v) :
    t ≠ k ∧ containsKeyDeep k v = false := by
  cases j with
  | obj fs => exact fieldsKeyDeep_lookup_all hg (by simpa [containsKeyDeep] using hj)
  | null => simp [Json.get] at hg
  | bool b => simp [Json.get] at hg
  | int n => simp [Json.get] at hg
  | str s => simp [Json.get] at hg
  | arr es => simp [Json.get] at hg

theorem fieldsKeyDeep_assign {k kk : String} {fs : List (String × Json)} {v : Json}
    (hfs : fieldsKeyDeep k fs = false) (hv : containsKeyDeep k v = false) (hkk : kk ≠ k) :
    fieldsKeyDeep k (assignField fs kk v) = false := by
  induction fs with
  | nil => simp [assignField, fieldsKeyDeep, hkk, hv]
  | cons hd tl ih =>
      obtain ⟨k', v'⟩ := hd
      simp only [fieldsKeyDeep, Bool.or_eq_false_iff, decide_eq_false_iff_not] at hfs
      obtain ⟨⟨hk1, hk2⟩, hk3⟩ := hfs
      by_cases hka : k' = kk
      · subst hka
        simp [assignField, fieldsKeyDeep, hkk, hv, hk3]
      · simp [assignField, fieldsKeyDeep, hka, hk1, hk2, ih hk3]

theorem containsKeyDeep_insert {k kk : String} {j v : Json}
    (hj : containsKeyDeep k j = false) (hv : containsKeyDeep k v = false) (hkk : kk ≠ k) :
    containsKeyDeep k (j.insertOrAssign kk v) = false := by
  cases j with
  | obj fs =>
      simp only [Json.insertOrAssign, containsKeyDeep]
      exact fieldsKeyDeep_assign (by simpa [containsKeyDeep] using hj) hv hkk
  | null => simpa [Json.insertOrAssign] using hj
  | bool b => simpa [Json.insertOrAssign] using hj
  | int n => simpa [Json.insertOrAssign] using hj
  | str s => simpa [Json.insertOrAssign] using hj
  | arr es => simpa [Json.insertOrAssign] using hj

/-- `getMetaDataAux` introduces no key other than `children` into its
output: every key of the result is either `children` or already occurs in
the stored tree. -/
theorem getMetaDataAux_no_new_keys (k : String) (hk : k ≠ "children") :
    ∀ (toks : List String) (cur : Json), containsKeyDeep k cur = false →
      ∀ res, getMetaDataAux cur toks = some res → containsKeyDeep k res = false := by
  intro toks
  induction toks with
  | nil => intro cur hcur res hres; simp [getMetaDataAux] at hres
  | cons t rest ih =>
      intro cur hcur res hres
      cases rest with
      | nil =>
          simp only [getMetaDataAux] at hres
          split at hres
          · rename_i node hg
            split at hres
            · rename_i ty hty
              obtain rfl : Json.obj [(t, node)] = res := by simpa using hres
              obtain ⟨htk, hnode⟩ := containsKeyDeep_get hcur hg
              simp [containsKeyDeep, fieldsKeyDeep, htk, hnode]
            · simp at hres
          · simp at hres
      | cons r rest' =>
          simp only [getMetaDataAux] at hres
          split at hres
          · rename_i node hg
            obtain ⟨htk, hnode⟩ := containsKeyDeep_get hcur hg
            split at hres
            · rename_i ty hty
              split at hres
              · rename_i hbr
                split at hres
                · rename_i kids hch
                  split at hres
                  · rename_i inner hin
                    obtain rfl : Json.obj [(t, node.insertOrAssign "children" inner)] = res := by
                      simpa using hres
                    have hkids : containsKeyDeep k kids = false :=
                      (containsKeyDeep_get hnode hch).2
                    have hinner : containsKeyDeep k inner = false :=
                      ih kids hkids inner hin
                    have hins : containsKeyDeep k (node.insertOrAssign "children" inner) = false :=
                      containsKeyDeep_insert hnode hinner (Ne.symm hk)
                    simp [containsKeyDeep, fieldsKeyDeep, htk, hins]
                  · simp at hres
                · simp at hres
              · rename_i hbr
                obtain rfl : Json.obj [(t, node)] = res := by simpa using hres
                simp [containsKeyDeep, fieldsKeyDeep, htk, hnode]
            · simp at hres
          · simp at hres

/-! ## Claim C3 -/

/-- C3 (counterexample): after a value is written to the leaf
`Vehicle.Acceleration.Vertical`, the metadata returned for the branch
`Vehicle.Acceleration` contains a `value` field: `getMetaData` copies the
matched nodes verbatim and strips nothing. -/
theorem getMetaData_keeps_written_value :
    ∃ tree' evs res,
      setSignal vssTree ["Vehicle", "Acceleration", "Vertical"] (.int 10) = .ok (tree', evs) ∧
      getMetaData tree' ["Vehicle", "Acceleration"] = .ok res ∧
      containsKeyDeep "value" res = true :=
  ⟨_, _, _, rfl, rfl, rfl⟩

/-- C3 (amended): `getMetaData` copies the matched nodes verbatim, so every
metadata tree it produces contains no `value` and no `timestamp` field at
any depth precisely as long as none has been stored in the tree (no write
has happened); written values are not stripped and, per the counterexample,
appear in the output. -/
theorem getMetaData_no_value_before_writes (tree : Json) (toks : List String)
    (hv : containsKeyDeep "value" tree = false)
    (ht : containsKeyDeep "timestamp" tree = false) :
    ∀ res, getMetaData tree toks = .ok res →
      containsKeyDeep "value" res = false ∧ containsKeyDeep "timestamp" res = false := by
  intro res hres
  rcases haux : getMetaDataAux tree toks with _ | r
  · simp [getMetaData, haux] at hres
  · obtain rfl : r = res := by simpa [getMetaData, haux] using hres
    exact ⟨getMetaDataAux_no_new_keys _ (by decide) toks tree hv r haux,
           getMetaDataAux_no_new_keys _ (by decide) toks tree ht r haux⟩

/-- Witness for the amended C3 on the fixture tree. -/
theorem getMetaData_no_value_before_writes_witness :
    ∃ res, getMetaData vssTree ["Vehicle", "Acceleration"] = .ok res ∧
      containsKeyDeep "value" res = false ∧ containsKeyDeep "timestamp" res = false :=
  ⟨_, rfl,
   getMetaData_no_value_before_writes vssTree ["Vehicle", "Acceleration"] rfl rfl _ rfl⟩

/-! ## Claim C6 -/

/-- C6 (counterexample): for a path matching no node, `getMetaData` ends in
a jsoncons library error — raised by the empty-JSONPath query inside
`getPathForMetadata`, not a `PathNotFound` failure — and the error escapes
`processGetMetaData`, which builds no response at all: neither a 404 error
envelope nor any other `getMetadata` response is produced. -/
theorem processGetMetaData_no_404 :
    getMetaData vssTree ["Vehicle", "Invalid", "Path"] =
      .error (.libEx "invalid JSONPath") ∧
    processGetMetaData vssTree 3 ["Vehicle", "Invalid", "Path"] 0 = none :=
  ⟨rfl, rfl⟩

/-- C6 (amended): for every (nonempty) path that does not resolve,
`getMetaData` does not fail `PathNotFound`: the empty-JSONPath query inside
`getPathForMetadata` raises a jsoncons library error before the `NULL`
return behind the `jPath` check can run, and the error escapes
`processGetMetaData`, which has no error branch — the handler produces no
`getMetadata` response, in particular no 404 path-not-found envelope. -/
theorem processGetMetaData_unmatched (tree : Json) (toks : List String) (rid t : Nat)
    (h : getMetaDataAux tree toks = none) :
    getMetaData tree toks = .error (.libEx "invalid JSONPath") ∧
    processGetMetaData tree rid toks t = none := by
  constructor
  · simp [getMetaData, h]
  · simp [processGetMetaData, getMetaData, h]

/-- Witness for the amended C6. -/
theorem processGetMetaData_unmatched_witness :
    getMetaData (Json.obj [("Root", Json.obj [("type", Json.str "branch"),
        ("children", Json.obj [])])]) ["Root", "Missing"] =
      .error (.libEx "invalid JSONPath") ∧
    processGetMetaData (Json.obj [("Root", Json.obj [("type", Json.str "branch"),
        ("children", Json.obj [])])]) 3 ["Root", "Missing"] 0 = none :=
  processGetMetaData_unmatched (Json.obj [("Root", Json.obj [("type", Json.str "branch"),
      ("children", Json.obj [])])]) ["Root", "Missing"] 3 0 rfl

/-! ## Claim C4 -/

theorem coerceValue_int_out_of_range {ty : String} {lo hi n : Int}
    (hrange : intRange ty = some (lo, hi)) (hout : n < lo ∨ hi < n) :
    coerceValue ty (.int n) =
      .error (.outOfBound ("The type " ++ ty ++ " with the value passed is out of bound")) := by
  by_cases h1 : ty = "UInt8"
  · subst h1
    simp [intRange] at hrange
    obtain ⟨rfl, rfl⟩ := hrange
    simp [coerceValue, asIntInRange]
    omega
  · by_cases h2 : ty = "UInt16"
    · subst h2
      simp [intRange] at hrange
      obtain ⟨rfl, rfl⟩ := hrange
      simp [coerceValue, asIntInRange]
      omega
    · by_cases h3 : ty = "UInt32"
      · subst h3
        simp [intRange] at hrange
        obtain ⟨rfl, rfl⟩ := hrange
        simp [coerceValue, asIntInRange]
        omega
      · by_cases h4 : ty = "Int8"
        · subst h4
          simp [intRange] at hrange
          obtain ⟨rfl, rfl⟩ := hrange
          simp [coerceValue, asIntInRange]
          omega
        · by_cases h5 : ty = "Int16"
          · subst h5
            simp [intRange] at hrange
            obtain ⟨rfl, rfl⟩ := hrange
            simp [coerceValue, asIntInRange]
            omega
          · by_cases h6 : ty = "Int32"
            · subst h6
              simp [intRange] at hrange
              obtain ⟨rfl, rfl⟩ := hrange
              simp [coerceValue, asIntInRange]
              omega
            · simp [intRange, h1, h2, h3, h4, h5, h6] at hrange

theorem setSignal_int_out_of_bounds (tree : Json) (toks p : List String) (node : Json)
    (ty : String) (lo hi n : Int)
    (hres : getVSSSpecificPath tree toks = some (p, node, false))
    (hty : node.get "type" = some (.str ty))
    (hrange : intRange ty = some (lo, hi)) (hout : n < lo ∨ hi < n) :
    setSignal tree toks (.int n) =
      .error (.outOfBound ("The type " ++ ty ++ " with the value passed is out of bound")) := by
  have htoks : toks ≠ [] := by
    rintro rfl
    simp [getVSSSpecificPath] at hres
  simp [setSignal, htoks, hres, hty, coerceValue_int_out_of_range hrange hout]

/-- C4 (confirmed): a set on an integer-typed leaf with a numeric value
outside the declared range fails out of bounds before anything is stored,
and the response is the 400 envelope whose reason is "Value passed is out of
bounds"; the tree the processing continues with is the unchanged one. -/
theorem processSet_out_of_bounds (tree : Json) (toks p : List String) (node : Json)
    (ty : String) (lo hi n : Int) (request_id t : Nat)
    (hres : getVSSSpecificPath tree toks = some (p, node, false))
    (hty : node.get "type" = some (.str ty))
    (hrange : intRange ty = some (lo, hi)) (hout : n < lo ∨ hi < n) :
    ∃ msg, setSignal tree toks (.int n) = .error (.outOfBound msg) ∧
      processSet tree request_id toks (.int n) t =
        some (valueOutOfBoundsResponse request_id "set" msg t, tree) := by
  refine ⟨_, setSignal_int_out_of_bounds tree toks p node ty lo hi n hres hty hrange hout, ?_⟩
  simp [processSet, setSignal_int_out_of_bounds tree toks p node ty lo hi n hres hty hrange hout]

/-- Witness for C4: `set Vehicle.Acceleration.Lateral = 500` on the `Int8`
leaf. -/
theorem processSet_out_of_bounds_witness :
    ∃ msg,
      setSignal vssTree ["Vehicle", "Acceleration", "Lateral"] (.int 500) =
        .error (.outOfBound msg) ∧
      processSet vssTree 9 ["Vehicle", "Acceleration", "Lateral"] (.int 500) 0 =
        some (valueOutOfBoundsResponse 9 "set" msg 0, vssTree) :=
  processSet_out_of_bounds vssTree ["Vehicle", "Acceleration", "Lateral"]
    ["Vehicle", "Acceleration", "Lateral"] lateralNode "Int8" (-128) 127 500 9 0
    rfl rfl rfl (by decide)

/-! ## Resolution and replacement lemmas for the set/get round trip -/

/-- A node a resolution ends on with `isBranch = false` carries a non-branch
string `type`. -/
theorem getVSSSpecificPath_leaf_type :
    ∀ (toks : List String) (cur : Json) (p : List String) (node : Json),
      getVSSSpecificPath cur toks = some (p, node, false) →
      ∃ ty, node.get "type" = some (.str ty) ∧ ty ≠ "branch" := by
  intro toks
  induction toks with
  | nil => intro cur p node h; simp [getVSSSpecificPath] at h
  | cons t rest ih =>
      intro cur p node h
      cases rest with
      | nil =>
          simp only [getVSSSpecificPath] at h
          split at h
          · rename_i nd hg
            split at h
            · rename_i ty hty
              obtain ⟨rfl, rfl, hflag⟩ :
                  [t] = p ∧ nd = node ∧ decide (ty = "branch") = false := by
                simpa using h
              exact ⟨ty, hty, by simpa using hflag⟩
            · simp at h
          · simp at h
      | cons r rest' =>
          simp only [getVSSSpecificPath] at h
          split at h
          · rename_i nd hg
            split at h
            · rename_i ty hty
              split at h
              · rename_i hbr
                split at h
                · rename_i kids hch
                  simp only [Option.map_eq_some'] at h
                  obtain ⟨⟨p', nd', b'⟩, hrec, heq⟩ := h
                  obtain ⟨rfl, rfl, rfl⟩ :
                      t :: p' = p ∧ nd' = node ∧ b' = false := by
                    simpa using heq
                  exact ih kids p' _ hrec
                · simp at h
              · rename_i hbr
                obtain ⟨rfl, rfl⟩ : [t] = p ∧ nd = node := by simpa using h
                exact ⟨ty, hty, hbr⟩
            · simp at h
          · simp at h

/-- Resolution agrees with direct path evaluation: the resolved node is the
one `json_query` finds at the resolved path. -/
theorem getVSSSpecificPath_queryNode :
    ∀ (toks : List String) (cur : Json) (p : List String) (node : Json) (b : Bool),
      getVSSSpecificPath cur toks = some (p, node, b) → queryNode cur p = some node := by
  intro toks
  induction toks with
  | nil => intro cur p node b h; simp [getVSSSpecificPath] at h
  | cons t rest ih =>
      intro cur p node b h
      cases rest with
      | nil =>
          simp only [getVSSSpecificPath] at h
          split at h
          · rename_i nd hg
            split at h
            · rename_i ty hty
              obtain ⟨rfl, rfl, -⟩ : [t] = p ∧ nd = node ∧ decide (ty = "branch") = b := by
                simpa using h
              simpa [queryNode] using hg
            · simp at h
          · simp at h
      | cons r rest' =>
          simp only [getVSSSpecificPath] at h
          split at h
          · rename_i nd hg
            split at h
            · rename_i ty hty
              split at h
              · rename_i hbr
                split at h
                · rename_i kids hch
                  simp only [Option.map_eq_some'] at h
                  obtain ⟨⟨p', nd', b'⟩, hrec, heq⟩ := h
                  obtain ⟨rfl, rfl, rfl⟩ :
                      t :: p' = p ∧ nd' = node ∧ b' = b := by simpa using heq
                  have hq := ih kids p' _ _ hrec
                  have hp' : p' ≠ [] := by
                    rintro rfl
                    simp [queryNode] at hq
                  cases p' with
                  | nil => exact absurd rfl hp'
                  | cons q qs => simp [queryNode, hg, hch, hq]
                · simp at h
              · rename_i hbr
                obtain ⟨rfl, rfl, -⟩ : [t] = p ∧ nd = node ∧ b = false := by simpa using h
                simpa [queryNode] using hg
            · simp at h
          · simp at h

/-- A value with a member is an object holding that member. -/
theorem get_some_obj {j : Json} {t : String} {v : Json} (h : j.get t = some v) :
    ∃ fs, j = .obj fs ∧ lookupField fs t = some v := by
  cases j with
  | obj fs => exact ⟨fs, rfl, h⟩
  | null => simp [Json.get] at h
  | bool b => simp [Json.get] at h
  | int n => simp [Json.get] at h
  | str s => simp [Json.get] at h
  | arr l => simp [Json.get] at h

/-- Direct path evaluation after an in-place replacement at that path finds
the new node. -/
theorem queryNode_replaceAt :
    ∀ (p : List String) (cur : Json) (node nn : Json),
      queryNode cur p = some node → queryNode (jsonReplaceAt cur p nn) p = some nn := by
  intro p
  induction p with
  | nil => intro cur node nn h; simp [queryNode] at h
  | cons t rest ih =>
      intro cur node nn h
      cases rest with
      | nil =>
          simp only [queryNode] at h
          obtain ⟨fs, rfl, hlk⟩ := get_some_obj h
          have hk : (Json.obj fs).hasKey t = true := by
            simp [Json.hasKey, Json.get, hlk]
          simp [jsonReplaceAt, hk, queryNode, get_insertOrAssign_self]
      | cons r rest' =>
          simp only [queryNode] at h
          split at h
          · rename_i nd hg
            split at h
            · rename_i kids hch
              obtain ⟨fs, rfl, -⟩ := get_some_obj hg
              obtain ⟨gs, rfl, -⟩ := get_some_obj hch
              have h1 : ((Json.obj fs).insertOrAssign t
                    ((Json.obj gs).insertOrAssign "children"
                      (jsonReplaceAt kids (r :: rest') nn))).get t =
                  some ((Json.obj gs).insertOrAssign "children"
                    (jsonReplaceAt kids (r :: rest') nn)) :=
                get_insertOrAssign_self fs t _
              have h2 : ((Json.obj gs).insertOrAssign "children"
                    (jsonReplaceAt kids (r :: rest') nn)).get "children" =
                  some (jsonReplaceAt kids (r :: rest') nn) :=
                get_insertOrAssign_self gs "children" _
              simp only [jsonReplaceAt, hg, hch, queryNode, h1, h2]
              exact ih kids node nn h
            · simp at h
          · simp at h

/-- Resolution is stable under replacing the resolved node by one with the
same `type` member: the walk finds the new node along the same path. -/
theorem getVSSSpecificPath_replaceAt :
    ∀ (toks : List String) (cur : Json) (p : List String) (node nn : Json),
      getVSSSpecificPath cur toks = some (p, node, false) →
      nn.get "type" = node.get "type" →
      getVSSSpecificPath (jsonReplaceAt cur p nn) toks = some (p, nn, false) := by
  intro toks
  induction toks with
  | nil => intro cur p node nn h hty; simp [getVSSSpecificPath] at h
  | cons t rest ih =>
      intro cur p node nn h hty
      cases rest with
      | nil =>
          simp only [getVSSSpecificPath] at h
          split at h
          · rename_i nd hg
            split at h
            · rename_i ty hty2
              obtain ⟨rfl, rfl, hflag⟩ :
                  [t] = p ∧ nd = node ∧ decide (ty = "branch") = false := by simpa using h
              obtain ⟨fs, rfl, hlk⟩ := get_some_obj hg
              have hk : (Json.obj fs).hasKey t = true := by
                simp [Json.hasKey, Json.get, hlk]
              have hget : ((Json.obj fs).insertOrAssign t nn).get t = some nn :=
                get_insertOrAssign_self fs t nn
              simp [jsonReplaceAt, hk, getVSSSpecificPath, hget, hty.trans hty2, hflag]
            · simp at h
          · simp at h
      | cons r rest' =>
          simp only [getVSSSpecificPath] at h
          split at h
          · rename_i nd hg
            split at h
            · rename_i ty hty2
              split at h
              · rename_i hbr
                split at h
                · rename_i kids hch
                  simp only [Option.map_eq_some'] at h
                  obtain ⟨⟨p', nd', b'⟩, hrec, heq⟩ := h
                  obtain ⟨rfl, rfl, rfl⟩ :
                      t :: p' = p ∧ nd' = node ∧ b' = false := by simpa using heq
                  obtain ⟨fs, rfl, -⟩ := get_some_obj hg
                  obtain ⟨gs, rfl, -⟩ := get_some_obj hty2
                  have hrep := ih kids p' _ nn hrec hty
                  have h1 : ((Json.obj fs).insertOrAssign t
                        ((Json.obj gs).insertOrAssign "children"
                          (jsonReplaceAt kids p' nn))).get t =
                      some ((Json.obj gs).insertOrAssign "children"
                        (jsonReplaceAt kids p' nn)) :=
                    get_insertOrAssign_self fs t _
                  have h2 : ((Json.obj gs).insertOrAssign "children"
                        (jsonReplaceAt kids p' nn)).get "type" =
                      (Json.obj gs).get "type" :=
                    get_insertOrAssign_ne gs "children" "type" _ (by decide)
                  have h3 : ((Json.obj gs).insertOrAssign "children"
                        (jsonReplaceAt kids p' nn)).get "children" =
                      some (jsonReplaceAt kids p' nn) :=
                    get_insertOrAssign_self gs "children" _
                  have hq := getVSSSpecificPath_queryNode (r :: rest') kids p' nd' false hrec
                  have hp' : p' ≠ [] := by
                    rintro rfl
                    simp [queryNode] at hq
                  cases p' with
                  | nil => exact absurd rfl hp'
                  | cons q qs =>
                      simp [jsonReplaceAt, hg, hch, getVSSSpecificPath, h1, h2, hty2, hbr,
                            h3, hrep]
                · simp at h
              · rename_i hbr
                obtain ⟨rfl, rfl⟩ : [t] = p ∧ nd = node := by simpa using h
                obtain ⟨fs, rfl, hlk⟩ := get_some_obj hg
                have hk : (Json.obj fs).hasKey t = true := by
                  simp [Json.hasKey, Json.get, hlk]
                have hget : ((Json.obj fs).insertOrAssign t nn).get t = some nn :=
                  get_insertOrAssign_self fs t nn
                simp [jsonReplaceAt, hk, getVSSSpecificPath, hget, hty.trans hty2, hbr]
            · simp at h
          · simp at h

/-- A node with a non-branch `type` is collected as the single leaf of its
own path. -/
theorem collectLeaves_leaf {node : Json} {ty : String}
    (h : node.get "type" = some (.str ty)) (hbr : ty ≠ "branch") (p : List String) :
    collectLeaves node p = [p] := by
  obtain ⟨fs, rfl, hlk⟩ := get_some_obj h
  rcases hid : lookupField fs "id" with _ | idv
  · simp [collectLeaves, hid, hlk, hbr]
  · simp [collectLeaves, hid, hlk]

/-- A successful integer coercion returns its input unchanged. -/
theorem asIntInRange_ok {lo hi : Int} {ty : String} {v w : Json}
    (h : asIntInRange lo hi ty v = .ok w) : w = v := by
  rcases v with _ | b | n | s | l | fs
  · simp [asIntInRange] at h
  · simp [asIntInRange] at h
  · simp only [asIntInRange] at h
    split at h
    · obtain rfl : Json.int n = w := by simpa using h
      rfl
    · simp at h
  · simp [asIntInRange] at h
  · simp [asIntInRange] at h
  · simp [asIntInRange] at h

/-- A successful coercion stores the input value itself, and only the ten
supported value types succeed. -/
theorem coerceValue_ok_id {ty : String} {v w : Json} (h : coerceValue ty v = .ok w) :
    w = v ∧ supportedValueType ty = true := by
  have hint : forall (lo hi : Int), asIntInRange lo hi ty v = .ok w -> w = v := by
    intro lo hi hh
    exact asIntInRange_ok hh
  by_cases h1 : ty = "UInt8"
  · subst h1
    simp [coerceValue] at h
    exact ⟨hint 0 255 h, by simp [supportedValueType]⟩
  by_cases h2 : ty = "UInt16"
  · subst h2
    simp [coerceValue] at h
    exact ⟨hint 0 65535 h, by simp [supportedValueType]⟩
  by_cases h3 : ty = "UInt32"
  · subst h3
    simp [coerceValue] at h
    exact ⟨hint 0 4294967295 h, by simp [supportedValueType]⟩
  by_cases h4 : ty = "Int8"
  · subst h4
    simp [coerceValue] at h
    exact ⟨hint (-128) 127 h, by simp [supportedValueType]⟩
  by_cases h5 : ty = "Int16"
  · subst h5
    simp [coerceValue] at h
    exact ⟨hint (-32768) 32767 h, by simp [supportedValueType]⟩
  by_cases h6 : ty = "Int32"
  · subst h6
    simp [coerceValue] at h
    exact ⟨hint (-2147483648) 2147483647 h, by simp [supportedValueType]⟩
  by_cases h7 : ty = "Float"
  · subst h7
    simp [coerceValue] at h
    rcases v with _ | b | n | s | l | fs
    · simp at h
    · simp at h
    · obtain rfl : Json.int n = w := by simpa using h
      exact ⟨rfl, by simp [supportedValueType]⟩
    · simp at h
    · simp at h
    · simp at h
  by_cases h8 : ty = "Double"
  · subst h8
    simp [coerceValue] at h
    rcases v with _ | b | n | s | l | fs
    · simp at h
    · simp at h
    · obtain rfl : Json.int n = w := by simpa using h
      exact ⟨rfl, by simp [supportedValueType]⟩
    · simp at h
    · simp at h
    · simp at h
  by_cases h9 : ty = "Boolean"
  · subst h9
    simp [coerceValue] at h
    rcases v with _ | b | n | s | l | fs
    · simp at h
    · obtain rfl : Json.bool b = w := by simpa using h
      exact ⟨rfl, by simp [supportedValueType]⟩
    · simp at h
    · simp at h
    · simp at h
    · simp at h
  by_cases h10 : ty = "String"
  · subst h10
    simp [coerceValue] at h
    rcases v with _ | b | n | s | l | fs
    · simp at h
    · simp at h
    · simp at h
    · obtain rfl : Json.str s = w := by simpa using h
      exact ⟨rfl, by simp [supportedValueType]⟩
    · simp at h
    · simp at h
  · simp [coerceValue, h1, h2, h3, h4, h5, h6, h7, h8, h9, h10] at h

/-- Inversion of a successful `setSignal`: the path resolved to a non-branch
node, the value coerced, and the new tree is the old one with the resolved
node replaced by itself plus the stored `value`. -/
theorem setSignal_ok {tree : Json} {toks : List String} {v : Json} {tree' : Json}
    {evs : List (Int × Json)} (h : setSignal tree toks v = .ok (tree', evs)) :
    ∃ p node ty w, getVSSSpecificPath tree toks = some (p, node, false) ∧
      node.get "type" = some (.str ty) ∧ coerceValue ty v = .ok w ∧
      tree' = jsonReplaceAt tree p (node.insertOrAssign "value" w) := by
  by_cases he : toks = []
  · simp [setSignal, he] at h
  · rcases hres : getVSSSpecificPath tree toks with _ | ⟨p, node, b⟩
    · simp [setSignal, he, hres] at h
    · cases b with
      | true => simp [setSignal, he, hres] at h
      | false =>
          rcases hty : node.get "type" with _ | tyv
          · simp [setSignal, he, hres, hty] at h
          · rcases tyv with _ | bb | nn | ty | ll | ffs
            · simp [setSignal, he, hres, hty] at h
            · simp [setSignal, he, hres, hty] at h
            · simp [setSignal, he, hres, hty] at h
            · rcases hco : coerceValue ty v with e | w
              · simp [setSignal, he, hres, hty, hco] at h
              · rcases hid : (node.insertOrAssign "value" w).get "id" with _ | idv
                · simp [setSignal, he, hres, hty, hco, hid] at h
                · rcases idv with _ | b2 | i | s2 | l2 | f2
                  · simp [setSignal, he, hres, hty, hco, hid] at h
                  · simp [setSignal, he, hres, hty, hco, hid] at h
                  · simp [setSignal, he, hres, hty, hco, hid] at h
                    obtain ⟨h1, -⟩ := h
                    exact ⟨p, node, ty, w, rfl, hty, hco, h1.symm⟩
                  · simp [setSignal, he, hres, hty, hco, hid] at h
                  · simp [setSignal, he, hres, hty, hco, hid] at h
                  · simp [setSignal, he, hres, hty, hco, hid] at h
            · simp [setSignal, he, hres, hty] at h
            · simp [setSignal, he, hres, hty] at h

/-! ## Claim C2 -/

/-- C2 (confirmed): after a successful `setSignal` of value `v` on a leaf
path — success is exactly what "leaf path and value within the declared
range" means to the code — `getSignal` on the same path observes `v` as the
`value` member of its answer. -/
theorem set_then_get {tree : Json} {toks : List String} {v : Json} {tree' : Json}
    {evs : List (Int × Json)} (h : setSignal tree toks v = .ok (tree', evs)) :
    ∃ ans, getSignal tree' toks = .ok ans ∧ ans.get "value" = some v := by
  obtain ⟨p, node, ty, w, hres, hty, hco, rfl⟩ := setSignal_ok h
  obtain ⟨rfl, hsupp⟩ := coerceValue_ok_id hco
  obtain ⟨fs, rfl, -⟩ := get_some_obj hty
  have htyeq : ((Json.obj fs).insertOrAssign "value" w).get "type" =
      (Json.obj fs).get "type" :=
    get_insertOrAssign_ne fs "value" "type" w (by decide)
  obtain ⟨ty0, hty0, hbr0⟩ := getVSSSpecificPath_leaf_type toks tree p (.obj fs) hres
  obtain rfl : ty0 = ty := by
    have := hty0.symm.trans hty
    simpa using this
  have hres' := getVSSSpecificPath_replaceAt toks tree p (.obj fs)
    ((Json.obj fs).insertOrAssign "value" w) hres htyeq
  have hq := getVSSSpecificPath_queryNode toks tree p (.obj fs) false hres
  have hq' := queryNode_replaceAt p tree (.obj fs)
    ((Json.obj fs).insertOrAssign "value" w) hq
  have hcl : collectLeaves ((Json.obj fs).insertOrAssign "value" w) p = [p] :=
    collectLeaves_leaf (htyeq.trans hty) hbr0 p
  have hv : ((Json.obj fs).insertOrAssign "value" w).get "value" = some w :=
    get_insertOrAssign_self fs "value" w
  have hkv : ((Json.obj fs).insertOrAssign "value" w).hasKey "value" = true := by
    simp [Json.hasKey, hv]
  have hsj : setJsonValue ((Json.obj fs).insertOrAssign "value" w) = some w := by
    simp [setJsonValue, htyeq.trans hty, hsupp, hv]
  have hans : (Json.obj [("path", Json.str (getReadablePath p))]).insertOrAssign "value" w =
      Json.obj [("path", Json.str (getReadablePath p)), ("value", w)] := by
    simp [Json.insertOrAssign, assignField]
  refine ⟨Json.obj [("path", .str (getReadablePath p)), ("value", w)], ?_, ?_⟩
  · simp [getSignal, hres', hcl, hq', hkv, hsj, hans]
  · simp [Json.get, lookupField]

/-- Witness for C2: `set Vehicle.Acceleration.Vertical = 10` then `get`. -/
theorem set_then_get_witness :
    ∃ ans,
      getSignal (jsonReplaceAt vssTree ["Vehicle", "Acceleration", "Vertical"]
          (verticalNode.insertOrAssign "value" (.int 10)))
        ["Vehicle", "Acceleration", "Vertical"] = .ok ans ∧
      ans.get "value" = some (.int 10) :=
  @set_then_get vssTree ["Vehicle", "Acceleration", "Vertical"] (.int 10) _ _ rfl

/-! ## Fold lemmas for the branch view of `getSignal` -/

theorem get_insertOrAssign_ne_any (j : Json) (k k' : String) (v : Json) (h : k' ≠ k) :
    (j.insertOrAssign k v).get k' = j.get k' := by
  cases j with
  | obj fs => exact get_insertOrAssign_ne fs k k' v h
  | null => rfl
  | bool b => rfl
  | int n => rfl
  | str s => rfl
  | arr l => rfl

theorem branchStep_get_other (tree : Json) (acc : Json) (lq : List String) (k : String)
    (h : getReadablePath lq ≠ k) : (branchStep tree acc lq).get k = acc.get k := by
  unfold branchStep
  split
  · split
    · split
      · exact get_insertOrAssign_ne_any _ _ _ _ (Ne.symm h)
      · rfl
    · exact get_insertOrAssign_ne_any _ _ _ _ (Ne.symm h)
  · rfl

theorem branchFold_get_other (tree : Json) :
    ∀ (qs : List (List String)) (acc : Json) (k : String),
      (∀ lq ∈ qs, getReadablePath lq ≠ k) →
      (qs.foldl (branchStep tree) acc).get k = acc.get k := by
  intro qs
  induction qs with
  | nil => intro acc k _; rfl
  | cons q qs ih =>
      intro acc k hnot
      rw [List.foldl_cons,
          ih (branchStep tree acc q) k (fun lq hm => hnot lq (List.mem_cons_of_mem q hm))]
      exact branchStep_get_other tree acc q k (hnot q (List.mem_cons_self q qs))

theorem branchStep_obj (tree : Json) (gs : List (String × Json)) (lq : List String) :
    ∃ gs', branchStep tree (.obj gs) lq = .obj gs' := by
  unfold branchStep
  split
  · split
    · split
      · exact ⟨_, rfl⟩
      · exact ⟨_, rfl⟩
    · exact ⟨_, rfl⟩
  · exact ⟨_, rfl⟩

theorem setJsonValue_some {ln w : Json} (h : setJsonValue ln = some w) :
    ln.get "value" = some w := by
  unfold setJsonValue at h
  split at h
  · split_ifs at h
    · exact h
  · simp at h

/-- Lookup in the branch-view fold: each leaf path of the folded list is
mapped to its stored value when one has been written, to `"---"` when not. -/
theorem branchFold_get (tree : Json) :
    ∀ (ps : List (List String)) (gs : List (String × Json)) (lp : List String),
      lp ∈ ps → (ps.map getReadablePath).Nodup →
      ∀ ln, queryNode tree lp = some ln →
        (ln.hasKey "value" = false →
          (ps.foldl (branchStep tree) (.obj gs)).get (getReadablePath lp) =
            some (.str "---")) ∧
        (∀ w, setJsonValue ln = some w →
          (ps.foldl (branchStep tree) (.obj gs)).get (getReadablePath lp) = some w) := by
  intro ps
  induction ps with
  | nil => intro gs lp hmem; simp at hmem
  | cons q qs ih =>
      intro gs lp hmem hnodup ln hq
      rw [List.map_cons, List.nodup_cons] at hnodup
      rcases List.mem_cons.mp hmem with rfl | hmem'
      · have hnot : ∀ lq ∈ qs, getReadablePath lq ≠ getReadablePath lp := by
          intro lq hm heq
          exact hnodup.1 (by rw [← heq]; exact List.mem_map_of_mem _ hm)
        constructor
        · intro hnov
          rw [List.foldl_cons, branchFold_get_other tree qs _ _ hnot]
          simp [branchStep, hq, hnov, get_insertOrAssign_self]
        · intro w hw
          have hval : ln.get "value" = some w := setJsonValue_some hw
          have hkv : ln.hasKey "value" = true := by simp [Json.hasKey, hval]
          rw [List.foldl_cons, branchFold_get_other tree qs _ _ hnot]
          simp [branchStep, hq, hkv, hw, get_insertOrAssign_self]
      · obtain ⟨gs', hgs'⟩ := branchStep_obj tree gs q
        have hres := ih gs' lp hmem' hnodup.2 ln hq
        rw [List.foldl_cons, hgs']
        exact hres

/-! ## Claim C7 -/

/-- C7 (amended): a get on a non-wildcard branch path returns an object with
a single `value` member and no `path` member; the `value` member maps the
readable path of each descendant leaf to its stored value when one has been
written (for value types the reader knows), and to `"---"` otherwise. -/
theorem getSignal_branch_view (tree : Json) (toks p : List String) (node : Json)
    (leaves : List (List String))
    (hres : getVSSSpecificPath tree toks = some (p, node, true))
    (hleaves : collectLeaves node p = leaves) (hne : leaves ≠ [])
    (hnodup : (leaves.map getReadablePath).Nodup) :
    ∃ valueMap, getSignal tree toks = .ok (Json.obj [("value", valueMap)]) ∧
      (Json.obj [("value", valueMap)] : Json).get "path" = none ∧
      ∀ lp ∈ leaves, ∀ ln, queryNode tree lp = some ln →
        (ln.hasKey "value" = false →
          valueMap.get (getReadablePath lp) = some (.str "---")) ∧
        (∀ w, setJsonValue ln = some w →
          valueMap.get (getReadablePath lp) = some w) := by
  refine ⟨leaves.reverse.foldl (branchStep tree) (Json.obj []), ?_, ?_, ?_⟩
  · simp [getSignal, hres, hleaves, hne]
  · simp [Json.get, lookupField]
  · intro lp hmem ln hq
    have hmem' : lp ∈ leaves.reverse := List.mem_reverse.mpr hmem
    have hnodup' : (leaves.reverse.map getReadablePath).Nodup := by
      rw [List.map_reverse]
      exact List.nodup_reverse.mpr hnodup
    exact branchFold_get tree leaves.reverse [] lp hmem' hnodup' ln hq

/-- Witness for the amended C7 on the fixture branch `Vehicle.Acceleration`. -/
theorem getSignal_branch_view_witness :
    ∃ valueMap,
      getSignal vssTree ["Vehicle", "Acceleration"] = .ok (Json.obj [("value", valueMap)]) ∧
      (Json.obj [("value", valueMap)] : Json).get "path" = none ∧
      ∀ lp ∈ [["Vehicle", "Acceleration", "Lateral"], ["Vehicle", "Acceleration", "Vertical"]],
        ∀ ln, queryNode vssTree lp = some ln →
          (ln.hasKey "value" = false →
            valueMap.get (getReadablePath lp) = some (.str "---")) ∧
          (∀ w, setJsonValue ln = some w →
            valueMap.get (getReadablePath lp) = some w) :=
  getSignal_branch_view vssTree ["Vehicle", "Acceleration"] ["Vehicle", "Acceleration"]
    accelerationNode
    [["Vehicle", "Acceleration", "Lateral"], ["Vehicle", "Acceleration", "Vertical"]]
    rfl
    (by simp [collectLeaves, collectKids, lookupField, accelerationNode, lateralNode,
              verticalNode])
    (by decide) (by decide)

/-- C7 (counterexample): the branch view of `get Vehicle.Acceleration` is an
object whose only member is `value`; it has no `path` member, against the
claimed view shape. -/
theorem getSignal_branch_no_path :
    ∃ ans, getSignal vssTree ["Vehicle", "Acceleration"] = .ok ans ∧
      ans.get "path" = none ∧
      ans.get "value" =
        some (Json.obj [("Vehicle.Acceleration.Vertical", .str "---"),
                        ("Vehicle.Acceleration.Lateral", .str "---")]) := by
  have hrp1 : getReadablePath ["Vehicle", "Acceleration", "Vertical"] =
      "Vehicle.Acceleration.Vertical" := rfl
  have hrp2 : getReadablePath ["Vehicle", "Acceleration", "Lateral"] =
      "Vehicle.Acceleration.Lateral" := rfl
  have hcl : collectLeaves accelerationNode ["Vehicle", "Acceleration"] =
      [["Vehicle", "Acceleration", "Lateral"], ["Vehicle", "Acceleration", "Vertical"]] := by
    simp [collectLeaves, collectKids, lookupField, accelerationNode, lateralNode,
          verticalNode]
  refine ⟨Json.obj [("value",
      Json.obj [("Vehicle.Acceleration.Vertical", .str "---"),
                ("Vehicle.Acceleration.Lateral", .str "---")])], ?_, rfl, rfl⟩
  have hres : getVSSSpecificPath vssTree ["Vehicle", "Acceleration"] =
      some (["Vehicle", "Acceleration"], accelerationNode, true) := rfl
  simp only [getSignal, hres, hcl]
  rfl

/-! ## Claim C5 -/

/-- C5 (confirmed): in the Gen2 get handler, read permission is evaluated
independently per matched leaf path: a request matching no leaf is the 404
path-not-found envelope; an all-denied request is the 403 no-access
envelope; otherwise the value array holds exactly the views of the readable
paths (denied paths omitted), and the denied paths are listed in a `warning`
member that is absent when nothing was denied. -/
theorem processGet2_permissions (vssPaths : List String) (canRead : String → Bool)
    (getSig : String → Json) (requestId pathStr : String) (t : Nat) :
    (vssPaths = [] →
      processGet2 vssPaths canRead getSig requestId pathStr t =
        JsonResponses.pathNotFound requestId "get" pathStr t) ∧
    (vssPaths ≠ [] → (∀ q ∈ vssPaths, canRead q = false) →
      processGet2 vssPaths canRead getSig requestId pathStr t =
        JsonResponses.noAccess requestId "get" ("No read access to " ++ pathStr) t) ∧
    ((∃ q0 ∈ vssPaths, canRead q0 = true) →
      (vssPaths.length ≠ 1 →
        (processGet2 vssPaths canRead getSig requestId pathStr t).get "value" =
          some (.arr ((vssPaths.filter (fun q => canRead q)).map
            (fun q => (getSig q).eraseKey "timestamp")))) ∧
      (vssPaths.filter (fun q => !canRead q) = [] →
        (processGet2 vssPaths canRead getSig requestId pathStr t).get "warning" = none) ∧
      (vssPaths.filter (fun q => !canRead q) ≠ [] →
        (processGet2 vssPaths canRead getSig requestId pathStr t).get "warning" =
          some (.str ("No read access to [ " ++
            String.intercalate "," (vssPaths.filter (fun q => !canRead q)) ++ " ]")))) := by
  refine ⟨?_, ?_, ?_⟩
  · rintro rfl
    simp [processGet2]
  · intro hne hall
    have hfilter : vssPaths.filter (fun q => !canRead q) = vssPaths :=
      List.filter_eq_self.mpr (by intro q hq; simpa using hall q hq)
    have hlen0 : ¬(vssPaths.length < 1) := by
      cases vssPaths with
      | nil => exact absurd rfl hne
      | cons a l => simp
    simp [processGet2, hlen0, hfilter]
  · rintro ⟨q0, hq0, hread⟩
    have hlen0 : ¬(vssPaths.length < 1) := by
      cases vssPaths with
      | nil => simp at hq0
      | cons a l => simp
    have hneq : ¬(vssPaths.length = (vssPaths.filter (fun q => !canRead q)).length) := by
      intro hlen
      have hsub : List.Sublist (vssPaths.filter (fun q => !canRead q)) vssPaths :=
        List.filter_sublist vssPaths
      have heq := hsub.eq_of_length hlen.symm
      have hmem : q0 ∈ vssPaths.filter (fun q => !canRead q) := by rw [heq]; exact hq0
      have := List.of_mem_filter hmem
      simp [hread] at this
    have hne2 : vssPaths ≠ [] := List.ne_nil_of_mem hq0
    refine ⟨?_, ?_, ?_⟩
    · intro hlen1
      by_cases hw : (vssPaths.filter (fun q => !canRead q)).length > 0 <;>
        rcases hlast : (vssPaths.filter (fun q => canRead q)).getLast? with _ | lastp <;>
          simp [processGet2, hlen0, hneq, hlen1, hlast, hw, hne2, Json.insertOrAssign,
                assignField, Json.get, lookupField]
    · intro hnowarn
      rcases hlast : (vssPaths.filter (fun q => canRead q)).getLast? with _ | lastp <;>
        by_cases hlen1 : vssPaths.length = 1
      · have hneq1 : ¬((1 : Nat) = (vssPaths.filter (fun q => !canRead q)).length) := by
          rw [← hlen1]; exact hneq
        simp [processGet2, hlen0, hneq, hneq1, hlen1, hlast, hnowarn, hne2,
              Json.insertOrAssign, assignField, Json.get, lookupField]
      · simp [processGet2, hlen0, hneq, hlen1, hlast, hnowarn, hne2,
              Json.insertOrAssign, assignField, Json.get, lookupField]
      · have hneq1 : ¬((1 : Nat) = (vssPaths.filter (fun q => !canRead q)).length) := by
          rw [← hlen1]; exact hneq
        simp [processGet2, hlen0, hneq, hneq1, hlen1, hlast, hnowarn, hne2,
              Json.insertOrAssign, assignField, Json.get, lookupField]
      · simp [processGet2, hlen0, hneq, hlen1, hlast, hnowarn, hne2,
              Json.insertOrAssign, assignField, Json.get, lookupField]
    · intro hwarn
      have hw : (vssPaths.filter (fun q => !canRead q)).length > 0 := by
        cases hfw : vssPaths.filter (fun q => !canRead q) with
        | nil => exact absurd hfw hwarn
        | cons a l => simp [hfw]
      rcases hlast : (vssPaths.filter (fun q => canRead q)).getLast? with _ | lastp <;>
        by_cases hlen1 : vssPaths.length = 1
      · have hneq1 : ¬((1 : Nat) = (vssPaths.filter (fun q => !canRead q)).length) := by
          rw [← hlen1]; exact hneq
        simp [processGet2, hlen0, hneq, hneq1, hlen1, hlast, hw, hne2,
              Json.insertOrAssign, assignField, Json.get, lookupField]
      · simp [processGet2, hlen0, hneq, hlen1, hlast, hw, hne2,
              Json.insertOrAssign, assignField, Json.get, lookupField]
      · have hneq1 : ¬((1 : Nat) = (vssPaths.filter (fun q => !canRead q)).length) := by
          rw [← hlen1]; exact hneq
        simp [processGet2, hlen0, hneq, hneq1, hlen1, hlast, hw, hne2,
              Json.insertOrAssign, assignField, Json.get, lookupField]
      · simp [processGet2, hlen0, hneq, hlen1, hlast, hw, hne2,
              Json.insertOrAssign, assignField, Json.get, lookupField]

/-- Witness for C5: a single matched path without read access yields the 403
envelope. -/
theorem processGet2_permissions_witness :
    processGet2 ["Vehicle.Speed"] (fun _ => false)
        (fun _ => Json.obj [("timestamp", .str "0")]) "1" "Vehicle.Speed" 0 =
      JsonResponses.noAccess "1" "get" ("No read access to " ++ "Vehicle.Speed") 0 :=
  (processGet2_permissions ["Vehicle.Speed"] (fun _ => false)
      (fun _ => Json.obj [("timestamp", .str "0")]) "1" "Vehicle.Speed" 0).2.1
    (by decide) (by intro q _; rfl)

end Vss
